import Mathlib

/-!
Verification development for the godoc static-snapshot pipeline
(`main.go`, `settings.go`).

The Go sources are shallowly embedded: file contents are `List Char`,
the compiled `regexp` patterns of `NewDocFileInfo` are fixed-length
character-matcher lists (every character of the interpolated file name is
a literal matcher except `.`, which RE2 compiles to an
any-character-except-newline wildcard; the file names fed into this
program contain no other regex metacharacter), and filesystem/process
effects are modelled as explicit state.
-/

/-! ## String helpers: `strings.Split(s, "/")` and `filepath.Base` -/

/-- Model of Go `strings.Split(s, sep)` for a one-character separator:
splits the character list at every occurrence of `sep`.  The result is
always non-empty, like in Go. -/
def splitChar (sep : Char) : List Char → List (List Char)
  | [] => [[]]
  | c :: rest =>
    match splitChar sep rest with
    | [] => [[]]
    | h :: t => if c = sep then [] :: h :: t else (c :: h) :: t

/-- Model of `stringSplit[len(stringSplit)-1]` after `strings.Split(s, "/")`
(`renameEntryPoint`, main.go:193-194): the final path segment. -/
def lastSegmentStr (s : String) : String :=
  ⟨(splitChar '/' s.data).getLastD []⟩

/-- Model of Go `filepath.Base` for the plain `dir/name` paths used by this
program (no trailing slashes, non-empty): the text after the last `/`. -/
def baseName (path : String) : String :=
  lastSegmentStr path

/-! ## RE2 model for the link-rewrite patterns

`NewDocFileInfo` (settings.go:41-42) compiles
`"href=\"" + oldName + "#"` and `"href=\"" + oldName + "\""` as regular
expressions without quoting `oldName`.  For the file names this pipeline
produces the only regex metacharacter that can occur is `.`, which RE2
treats as "any character except newline".  A pattern is therefore a list
of matchers: `some c` matches exactly `c`, `none` matches any character
other than `'\n'`. -/

/-- One pattern element: a literal character or the `.` wildcard. -/
abbrev Matcher := Option Char

/-- Does the pattern match at the very start of `s` (consuming
`p.length` characters)? -/
def matchHere : List Matcher → List Char → Bool
  | [], _ => true
  | _ :: _, [] => false
  | m :: p, c :: s =>
    (match m with
     | some a => a == c
     | none => c != '\n') && matchHere p s

/-- Does the pattern match at any position of `s`? -/
def hasMatch (p : List Matcher) : List Char → Bool
  | [] => matchHere p []
  | c :: rest => matchHere p (c :: rest) || hasMatch p rest

/-- Worker for the `ReplaceAll` model.  `skip` counts characters still
belonging to an already-replaced match, which are consumed without being
emitted; at `skip = 0` the scanner tests the pattern at the current
position, emits the replacement on a match (and skips the rest of the
matched text), and otherwise copies one character. -/
def replaceAllGo (p : List Matcher) (r : List Char) : List Char → Nat → List Char
  | [], _ => []
  | _ :: rest, skip + 1 => replaceAllGo p r rest skip
  | c :: rest, 0 =>
    if matchHere p (c :: rest) && !p.isEmpty then
      r ++ replaceAllGo p r rest (p.length - 1)
    else
      c :: replaceAllGo p r rest 0

/-- Model of `Regexp.ReplaceAll` for a fixed-length pattern: scan left to
right, replace each leftmost non-overlapping match by `r`, resume after
the matched text.  (RE2 finds the leftmost match; these patterns have a
fixed length, so leftmost-earliest and this scan coincide.) -/
def replaceAll (p : List Matcher) (r : List Char) (s : List Char) : List Char :=
  replaceAllGo p r s 0

/-- Literal pattern: every character of `s` matched exactly. -/
def litP (s : String) : List Matcher := s.data.map some

/-- How RE2 compiles one character of an interpolated file name:
`.` becomes the any-character wildcard, everything else is literal. -/
def wildChar (c : Char) : Matcher := if c = '.' then none else some c

/-- Wildcard-compiled character list of a file name. -/
def wildcardizeL (l : List Char) : List Matcher := l.map wildChar

/-- Wildcard-compiled pattern of a file name (the unquoted `oldName`
interpolated into the regex source). -/
def wildcardize (s : String) : List Matcher := wildcardizeL s.data

/-! ## `DocFileInfo` (settings.go:28-54) -/

/-- Model of `DocFileInfo`: one rename record plus its two compiled
substitution rules. -/
structure DocFileInfo where
  OldName : String
  NewName : String
  HtmlReplaceRegex1 : List Matcher
  HtmlReplaceRegex2 : List Matcher
  HtmlReplaceWith1 : List Char
  HtmlReplaceWith2 : List Char
deriving DecidableEq

/-- Model of `NewDocFileInfo(oldPath, newPath)` (settings.go:37-54):
base names are taken, pattern 1 is `href="<oldName>#`, pattern 2 is
`href="<oldName>"`, with `oldName` compiled unquoted (so its dots are
wildcards), and the replacements use `newName` literally. -/
def NewDocFileInfo (oldPath newPath : String) : DocFileInfo :=
  let oldName := baseName oldPath
  let newName := baseName newPath
  { OldName := oldName
    NewName := newName
    HtmlReplaceRegex1 := litP "href=\"" ++ wildcardize oldName ++ [some '#']
    HtmlReplaceRegex2 := litP "href=\"" ++ wildcardize oldName ++ [some '"']
    HtmlReplaceWith1 := ("href=\"" ++ newName ++ "#").data
    HtmlReplaceWith2 := ("href=\"" ++ newName ++ "\"").data }

/-- One pass of `rewriteHTMLLinks`' inner loop body (main.go:253-254):
apply rule 1 then rule 2 of a single record to a file content. -/
def rewriteOnce (info : DocFileInfo) (data : List Char) : List Char :=
  replaceAll info.HtmlReplaceRegex2 info.HtmlReplaceWith2
    (replaceAll info.HtmlReplaceRegex1 info.HtmlReplaceWith1 data)

/-- The full inner loop of `rewriteHTMLLinks` over one file: the file is
re-read and re-written per record, which is the same as folding
`rewriteOnce` over the record list in order. -/
def rewriteAllRecords (recs : List DocFileInfo) (data : List Char) : List Char :=
  recs.foldl (fun d info => rewriteOnce info d) data

/-- Model of `rewriteHTMLLinks` (main.go:242-263): every listed HTML file
is independently transformed by every record's two rules, in record
order.  A file is a (path, content) pair. -/
def rewriteHTMLLinksModel (recs : List DocFileInfo) (files : List (String × List Char)) :
    List (String × List Char) :=
  files.map (fun f => (f.1, rewriteAllRecords recs f.2))

/-! ## RenameEngine (main.go:190-239) -/

/-- The numbered target name `<base>.<index>.html` built at
main.go:226. -/
def numberedName (base : String) (index : Nat) : String :=
  base ++ "." ++ toString index ++ ".html"

/-- The entry point's new name `<base>-root.html` (main.go:197). -/
def entryNewName (base : String) : String :=
  base ++ "-root.html"

/-- The entry point's original name `<lastSegment>.html` derived from the
module name (main.go:193-196). -/
def entryOldName (modName : String) : String :=
  lastSegmentStr modName ++ ".html"

/-- Model of `renameEntryPoint` (main.go:190-207) as the pure path
computation it performs: the pair (old path, new path) that is passed to
`os.Rename`. -/
def renameEntryPointModel (buildDir modName base : String) : String × String :=
  (buildDir ++ "/" ++ entryOldName modName, buildDir ++ "/" ++ entryNewName base)

/-- Character-wise lexical comparison of two character lists, the order
in which `filepath.Glob` (via `sort.Strings`) returns file names (the
names here are ASCII, where byte order and character order agree). -/
def leChars : List Char → List Char → Bool
  | [], _ => true
  | _ :: _, [] => false
  | a :: as, b :: bs => if a < b then true else if b < a then false else leChars as bs

/-- Lexical order on file names. -/
def strOrder (a b : String) : Prop := leChars a.data b.data = true

instance : DecidableRel strOrder :=
  fun a b => inferInstanceAs (Decidable (leChars a.data b.data = true))

theorem leChars_total : ∀ a b : List Char, leChars a b = true ∨ leChars b a = true := by
  intro a
  induction a with
  | nil => intro b; left; rfl
  | cons x as ih =>
    intro b
    cases b with
    | nil => right; rfl
    | cons y bs =>
      rw [leChars, leChars]
      rcases lt_trichotomy x y with h | h | h
      · left; simp [h]
      · subst h
        simpa [lt_irrefl] using ih bs
      · right; simp [h]

theorem leChars_trans :
    ∀ a b c : List Char, leChars a b = true → leChars b c = true → leChars a c = true := by
  intro a
  induction a with
  | nil => intro b c _ _; rfl
  | cons x as ih =>
    intro b c hab hbc
    cases b with
    | nil => rw [leChars] at hab; exact absurd hab (by simp)
    | cons y bs =>
      cases c with
      | nil => rw [leChars] at hbc; exact absurd hbc (by simp)
      | cons z cs =>
        rw [leChars] at hab hbc ⊢
        by_cases hxy : x < y
        · by_cases hyz : y < z
          · simp [lt_trans hxy hyz]
          · by_cases hzy : z < y
            · rw [if_neg hyz, if_pos hzy] at hbc
              exact absurd hbc (by simp)
            · have hyz' : y = z := le_antisymm (not_lt.mp hzy) (not_lt.mp hyz)
              subst hyz'
              simp [hxy]
        · by_cases hyx : y < x
          · rw [if_neg hxy, if_pos hyx] at hab
            exact absurd hab (by simp)
          · have hxy' : x = y := le_antisymm (not_lt.mp hyx) (not_lt.mp hxy)
            subst hxy'
            rw [if_neg hxy, if_neg hyx] at hab
            by_cases hxz : x < z
            · simp [hxz]
            · by_cases hzx : z < x
              · rw [if_neg hxz, if_pos hzx] at hbc
                exact absurd hbc (by simp)
              · have hxz' : x = z := le_antisymm (not_lt.mp hzx) (not_lt.mp hxz)
                subst hxz'
                rw [if_neg hxz, if_neg hzx] at hbc ⊢
                exact ih bs cs hab hbc

theorem leChars_antisymm :
    ∀ a b : List Char, leChars a b = true → leChars b a = true → a = b := by
  intro a
  induction a with
  | nil =>
    intro b _ hba
    cases b with
    | nil => rfl
    | cons y bs => rw [leChars] at hba; exact absurd hba (by simp)
  | cons x as ih =>
    intro b hab hba
    cases b with
    | nil => rw [leChars] at hab; exact absurd hab (by simp)
    | cons y bs =>
      rw [leChars] at hab hba
      by_cases hxy : x < y
      · rw [if_neg (lt_asymm hxy), if_pos hxy] at hba
        exact absurd hba (by simp)
      · by_cases hyx : y < x
        · rw [if_neg hxy, if_pos hyx] at hab
          exact absurd hab (by simp)
        · have hxy' : x = y := le_antisymm (not_lt.mp hyx) (not_lt.mp hxy)
          subst hxy'
          rw [if_neg hxy, if_neg hyx] at hab hba
          rw [ih bs hab hba]

instance : IsTotal String strOrder :=
  ⟨fun a b => leChars_total a.data b.data⟩

instance : IsTrans String strOrder :=
  ⟨fun a b c hab hbc => leChars_trans a.data b.data c.data hab hbc⟩

instance : IsAntisymm String strOrder :=
  ⟨fun a b hab hba => by
    have hd : a.data = b.data := leChars_antisymm a.data b.data hab hba
    cases a
    cases b
    exact congrArg String.mk hd⟩

/-- `filepath.Glob(buildDir + "/*.html")` returns its matches sorted in
lexical order; the model takes the bag of `.html` names present in the
build directory and sorts it. -/
def globHtmlSorted (files : List String) : List String :=
  List.insertionSort strOrder files

/-- The `for i, oldPath := range matches` loop of `renameOutputFiles`
(main.go:219-238), started at loop counter `n`: the entry point is
skipped (but still advances the counter), every other file at counter
`i` is renamed to `numberedName base (i+1)` and a `DocFileInfo` record
is appended. -/
def numberFrom (n : Nat) (globbed : List String) (entryNew base : String) :
    List DocFileInfo :=
  match globbed with
  | [] => []
  | x :: xs =>
    if x = entryNew then numberFrom (n + 1) xs entryNew base
    else NewDocFileInfo x (numberedName base (n + 1)) :: numberFrom (n + 1) xs entryNew base

/-- The record list produced by `renameOutputFiles`' loop over the glob
result. -/
def assignNumberedNames (globbed : List String) (entryNew base : String) :
    List DocFileInfo :=
  numberFrom 0 globbed entryNew base

/-- The numeric indices assigned by the same loop (the `index := i + 1`
values actually used at main.go:224-226), started at counter `n`. -/
def indicesFrom (n : Nat) (globbed : List String) (entryNew : String) : List Nat :=
  match globbed with
  | [] => []
  | x :: xs =>
    if x = entryNew then indicesFrom (n + 1) xs entryNew
    else (n + 1) :: indicesFrom (n + 1) xs entryNew

/-- The numeric indices assigned by `renameOutputFiles`. -/
def renameIndices (globbed : List String) (entryNew : String) : List Nat :=
  indicesFrom 0 globbed entryNew

/-- Model of `renameOutputFiles` (main.go:209-239) on the bag of `.html`
names in the build directory: first `renameEntryPoint` replaces
`<lastSegment>.html` by `<base>-root.html`, then the glob enumerates all
`.html` names in lexical order and the loop numbers every non-entry
file, producing the `DocFileInfo` records. -/
def renameOutputFilesModel (dirFiles : List String) (modName base : String) :
    List DocFileInfo :=
  let entryNew := entryNewName base
  let globbed := globHtmlSorted (entryNew :: dirFiles.erase (entryOldName modName))
  assignNumberedNames globbed entryNew base

/-- Model of `setupBuildDir` (main.go:174-188): `os.RemoveAll` clears the
build directory, then a dummy empty `index.html` is created to reserve
that name; afterwards the directory holds exactly `index.html`. -/
def setupBuildDirModel : List String := ["index.html"]

/-! ## `fileExists` and `scrapeModulePages` (main.go:18-23, 79-95) -/

/-- Model of `fileExists` (main.go:18-23).  `present` says whether the
file is actually there, `statErr` whether `os.Stat` failed with an error
that is not `IsNotExist` (e.g. a permission error).  Returns the Go
`(bool, error)` pair with the error collapsed to a flag: err nil gives
`(true, false)`; an `IsNotExist` error gives `(false, false)`; any other
error gives `(true, true)`. -/
def fileExistsModel (present statErr : Bool) : Bool × Bool :=
  if statErr then (true, true) else (present, false)

/-- Model of the error policy of `scrapeModulePages` (main.go:79-95):
the run is fatal (log.Panicf) exactly when the wget command returned a
non-nil error and the `style.css` check `!exists || err != nil`
holds. -/
def scrapeFatalModel (wgetFailed present statErr : Bool) : Bool :=
  if wgetFailed then
    let r := fileExistsModel present statErr
    !r.1 || r.2
  else false

/-- The spec's wording of the fatality condition for C8, for comparison:
fatal iff the crawl tool failed AND the stylesheet is missing. -/
def specFatalC8 (wgetFailed present : Bool) : Bool :=
  wgetFailed && !present

/-! ## `waitForServer` (main.go:98-127)

The loop issues a GET, and on any request error or non-200 status sleeps
one second and retries; on the first 200 it stops the timer and returns.
`time.AfterFunc(10*time.Second, ...)` panics if the timer is not stopped
within the 10-second wall-clock deadline.  Discretizing time in units of
the one-second retry interval, attempt `n` happens at second `n`, and
the independent deadline cuts the loop off after attempts `0..9`.
`resp n = true` means attempt `n` got a 200 response; `false` covers
both request errors and non-200 statuses, which the code treats
alike. -/

/-- Outcome of the readiness probe: success after observing the 200 on
attempt `n`, or the fatal deadline panic. -/
inductive ProbeResult where
  | ready (n : Nat)
  | timeoutPanic
deriving DecidableEq

/-- The retry loop with the remaining number of attempts the 10-second
deadline still allows, polling from attempt number `n`. -/
def probeLoop (resp : Nat → Bool) : Nat → Nat → ProbeResult
  | 0, _ => ProbeResult.timeoutPanic
  | fuel + 1, n => if resp n then ProbeResult.ready n else probeLoop resp fuel (n + 1)

/-- Model of `waitForServer`: ten one-second-spaced attempts fit before
the 10-second `time.AfterFunc` deadline fires. -/
def waitForServerModel (resp : Nat → Bool) : ProbeResult :=
  probeLoop resp 10 0

/-! ## Server lifecycle (main.go:25-48, 129-152)

`runServerAndScrapeDocs` starts `runDocServer` on a second goroutine;
that goroutine blocks in `shutdownSignal.Wait()` with
`killDeferred` deferred.  The pipeline's own deferred function raises
the shutdown signal and blocks on `shutdownComplete`.  Go semantics used
by the model:

- deferred calls of a goroutine run when that goroutine's function
  returns or panics (so a `log.Panicf` in `scrapeModulePages`, which
  runs on the pipeline goroutine, still runs the pipeline's deferred
  cleanup before the program dies);
- `time.AfterFunc` invokes its callback on a new goroutine, and an
  unrecovered panic terminates the whole program running only the
  panicking goroutine's deferred calls — the timeout `log.Panicf` in
  `waitForServer` therefore kills the program without ever running the
  pipeline goroutine's deferred cleanup or the server goroutine's
  deferred `killDeferred`. -/

/-- The distinguishable exit paths of `runServerAndScrapeDocs` named by
claim C2. -/
inductive ExitPath where
  | normal
  | mirrorFailure
  | readinessTimeout
deriving DecidableEq

/-- Shared lifecycle state: whether the godoc subprocess is still
running, how many times `process.Kill` was invoked, and the two
one-shot WaitGroup signals. -/
structure LifecycleState where
  processAlive : Bool
  killCount : Nat
  shutdownSignalRaised : Bool
  shutdownCompleteRaised : Bool
deriving DecidableEq

/-- State right after `command.Start()` succeeded and `waitForServer`
was entered: the subprocess is alive, nothing has been signalled. -/
def serverStarted : LifecycleState :=
  { processAlive := true
    killCount := 0
    shutdownSignalRaised := false
    shutdownCompleteRaised := false }

/-- Model of `killDeferred` (main.go:25-33): kill the process and raise
the shutdown-complete signal. -/
def killDeferredModel (s : LifecycleState) : LifecycleState :=
  { s with processAlive := false
           killCount := s.killCount + 1
           shutdownCompleteRaised := true }

/-- The server goroutine resuming from `shutdownSignal.Wait()`
(main.go:47): `runDocServer` returns, so its deferred `killDeferred`
runs. -/
def serverGoroutineResume (s : LifecycleState) : LifecycleState :=
  killDeferredModel s

/-- The pipeline's deferred cleanup (main.go:141-144): raise the
shutdown signal — which unblocks the server goroutine, whose deferred
kill then runs — and wait for shutdown-complete. -/
def pipelineDeferredCleanup (s : LifecycleState) : LifecycleState :=
  serverGoroutineResume { s with shutdownSignalRaised := true }

/-- Model of `runServerAndScrapeDocs` (main.go:129-152) per exit path.
On normal completion the deferred cleanup runs; on a mirror failure the
panic is raised on the pipeline goroutine, so the deferred cleanup still
runs before the program dies; on the readiness timeout the panic is
raised on the `time.AfterFunc` goroutine, the program terminates at
once, and no deferred call of any other goroutine runs. -/
def runPipelineModel : ExitPath → LifecycleState
  | ExitPath.normal => pipelineDeferredCleanup serverStarted
  | ExitPath.mirrorFailure => pipelineDeferredCleanup serverStarted
  | ExitPath.readinessTimeout => serverStarted

/-! ## Helper lemmas about the substitution model -/

theorem replaceAllGo_skip (p : List Matcher) (r : List Char) :
    ∀ (s : List Char) (k : Nat), replaceAllGo p r s k = replaceAllGo p r (s.drop k) 0 := by
  intro s
  induction s with
  | nil => intro k; cases k <;> rfl
  | cons c rest ih =>
    intro k
    cases k with
    | zero => rfl
    | succ k => simpa [replaceAllGo] using ih k

theorem replaceAll_nil (p : List Matcher) (r : List Char) : replaceAll p r [] = [] := rfl

theorem replaceAll_cons_of_match {p : List Matcher} {c : Char} {rest : List Char}
    (r : List Char) (h1 : matchHere p (c :: rest) = true) (h2 : p ≠ []) :
    replaceAll p r (c :: rest) = r ++ replaceAll p r (List.drop p.length (c :: rest)) := by
  have hne : p.isEmpty = false := by
    cases p with
    | nil => exact absurd rfl h2
    | cons a q => rfl
  have hp : 0 < p.length := List.length_pos.mpr h2
  unfold replaceAll
  rw [replaceAllGo]
  simp only [h1, hne, Bool.not_false, Bool.and_true, if_pos]
  rw [replaceAllGo_skip p r rest (p.length - 1)]
  congr 1
  have : List.drop p.length (c :: rest) = List.drop (p.length - 1) rest := by
    cases hlp : p.length with
    | zero => omega
    | succ m => simp [hlp, List.drop_succ_cons]
  rw [this]

theorem replaceAll_cons_of_nomatch {p : List Matcher} {c : Char} {rest : List Char}
    (r : List Char) (h : matchHere p (c :: rest) = false) :
    replaceAll p r (c :: rest) = c :: replaceAll p r rest := by
  unfold replaceAll
  rw [replaceAllGo]
  simp [h]

/-- If the pattern matches nowhere in `s`, the substitution leaves `s`
unchanged. -/
theorem replaceAll_of_hasMatch_false {p : List Matcher} {s : List Char}
    (r : List Char) (h : hasMatch p s = false) : replaceAll p r s = s := by
  induction s with
  | nil => exact replaceAll_nil p r
  | cons c rest ih =>
    rw [hasMatch, Bool.or_eq_false_iff] at h
    rw [replaceAll_cons_of_nomatch r h.1, ih h.2]

/-- A literal pattern segment consumes exactly its own text. -/
theorem matchHere_lit_append (l t : List Char) (p : List Matcher) :
    matchHere (l.map some ++ p) (l ++ t) = matchHere p t := by
  induction l with
  | nil => rfl
  | cons c rest ih => simp [matchHere, ih]

/-- A wildcard-compiled pattern segment matches its own source text
(provided that text has no newline, which the wildcard refuses). -/
theorem matchHere_wild_append (l t : List Char) (p : List Matcher)
    (hl : ∀ c ∈ l, c ≠ '\n') :
    matchHere (wildcardizeL l ++ p) (l ++ t) = matchHere p t := by
  induction l with
  | nil => rfl
  | cons c rest ih =>
    have hc : c ≠ '\n' := hl c (List.mem_cons_self c rest)
    have hrest : ∀ x ∈ rest, x ≠ '\n' := fun x hx => hl x (List.mem_cons_of_mem c hx)
    have ih2 := ih hrest
    simp only [wildcardizeL, List.map_cons, List.cons_append, matchHere] at ih2 ⊢
    by_cases hdot : c = '.'
    · simp [wildChar, hdot, hc, ih2]
    · simp [wildChar, hdot, ih2]

/-! ## Claim C3 -/

/-- C3 counterexample: with the record pkg.html → godoc-root.html, the
content `href="pkgXhtml"` — which contains no literal, quote-delimited
occurrence of `pkg.html` at all — is nevertheless rewritten to
`href="godoc-root.html"`, because the unquoted `.` of the old name is a
regex wildcard, not a literal character. -/
theorem c3_counterexample :
    rewriteOnce (NewDocFileInfo "pkg.html" "godoc-root.html") ("href=\"pkgXhtml\"").data
      = ("href=\"godoc-root.html\"").data
    ∧ ¬ ("pkg.html".data <:+: ("href=\"pkgXhtml\"").data) := by
  constructor
  · rfl
  · decide

/-- C3 (amended): the two substitutions replace occurrences of
`href="<oldName>#` and `href="<oldName>"` where every `.` of the old
name matches any single non-newline character (the name is interpolated
into the regex unescaped), rather than strictly literal text.  Every
literal occurrence is still matched (first conjunct), and on the spec's
round-trip content the anchor-qualified and quote-terminated forms are
both rewritten correctly and independently, with no other text changed
(second conjunct). -/
theorem c3_amended_rewrite :
    (∀ (old : String) (tail : List Char), (∀ c ∈ old.data, c ≠ '\n') →
      matchHere (litP "href=\"" ++ wildcardize old ++ [some '#'])
        (("href=\"" ++ old ++ "#").data ++ tail) = true)
    ∧ rewriteOnce (NewDocFileInfo "pkg.html" "godoc-root.html")
        ("<a href=\"pkg.html#Foo\">x</a><a href=\"pkg.html\">y</a>").data
      = ("<a href=\"godoc-root.html#Foo\">x</a><a href=\"godoc-root.html\">y</a>").data := by
  constructor
  · intro old tail hold
    have harr : ("href=\"" ++ old ++ "#").data ++ tail
        = "href=\"".data ++ (old.data ++ ('#' :: tail)) := by
      simp [String.data_append]
    rw [harr, litP, List.append_assoc, matchHere_lit_append, wildcardize,
      matchHere_wild_append old.data ('#' :: tail) [some '#'] hold]
    rfl
  · rfl

/-- C3 witness: the general literal-match conjunct applied at the spec's
own record, plus the round-trip equality. -/
theorem c3_amended_rewrite_witness :
    matchHere (litP "href=\"" ++ wildcardize "pkg.html" ++ [some '#'])
      (("href=\"" ++ "pkg.html" ++ "#").data ++ "Foo\"".data) = true
    ∧ rewriteOnce (NewDocFileInfo "pkg.html" "godoc-root.html")
        ("<a href=\"pkg.html#Foo\">x</a><a href=\"pkg.html\">y</a>").data
      = ("<a href=\"godoc-root.html#Foo\">x</a><a href=\"godoc-root.html\">y</a>").data :=
  ⟨c3_amended_rewrite.1 "pkg.html" "Foo\"".data (by decide), c3_amended_rewrite.2⟩

/-! ## Claim C6 -/

/-- C6 counterexample: for the record
old = `godoc.1.html.extra.html`, new = `godoc.1.html`, applying the
record's pair of substitutions a second time changes the content again:
the wildcard dots of the old name let the pattern match across the
replacement's `#` delimiter into following text. -/
theorem c6_counterexample :
    rewriteOnce (NewDocFileInfo "godoc.1.html.extra.html" "godoc.1.html")
        (rewriteOnce (NewDocFileInfo "godoc.1.html.extra.html" "godoc.1.html")
          ("href=\"godocA1BhtmlCextraDhtml#extraQhtml#").data)
      ≠ rewriteOnce (NewDocFileInfo "godoc.1.html.extra.html" "godoc.1.html")
          ("href=\"godocA1BhtmlCextraDhtml#extraQhtml#").data := by
  decide

/-- C6 (amended): applying the same record's pair of substitutions a
second time is a no-op whenever the once-rewritten content contains no
further match of either pattern (which holds for the spec's round-trip
content, but not universally: see the counterexample). -/
theorem c6_amended_idempotent :
    ∀ (info : DocFileInfo) (c : List Char),
      hasMatch info.HtmlReplaceRegex1 (rewriteOnce info c) = false →
      hasMatch info.HtmlReplaceRegex2 (rewriteOnce info c) = false →
      rewriteOnce info (rewriteOnce info c) = rewriteOnce info c := by
  intro info c h1 h2
  have step : ∀ y : List Char, hasMatch info.HtmlReplaceRegex1 y = false →
      hasMatch info.HtmlReplaceRegex2 y = false → rewriteOnce info y = y := by
    intro y g1 g2
    unfold rewriteOnce
    rw [replaceAll_of_hasMatch_false info.HtmlReplaceWith1 g1,
      replaceAll_of_hasMatch_false info.HtmlReplaceWith2 g2]
  exact step (rewriteOnce info c) h1 h2

/-- C6 witness: idempotence on the spec's round-trip content. -/
theorem c6_amended_idempotent_witness :
    rewriteOnce (NewDocFileInfo "pkg.html" "godoc-root.html")
        (rewriteOnce (NewDocFileInfo "pkg.html" "godoc-root.html")
          ("<a href=\"pkg.html#Foo\">x</a><a href=\"pkg.html\">y</a>").data)
      = rewriteOnce (NewDocFileInfo "pkg.html" "godoc-root.html")
          ("<a href=\"pkg.html#Foo\">x</a><a href=\"pkg.html\">y</a>").data :=
  c6_amended_idempotent (NewDocFileInfo "pkg.html" "godoc-root.html")
    ("<a href=\"pkg.html#Foo\">x</a><a href=\"pkg.html\">y</a>").data
    (by decide) (by decide)

/-! ## Claim C5 -/

/-- C5 counterexample: with an output set mirrored as `a.html`,
`godoc.1.html` and entry `pkg.html` (base `godoc`), the engine produces
the records a.html → godoc.1.html and godoc.1.html → godoc.3.html.  On
the content `href="a.html"` the two records do not commute: applied in
glob order the reference ends at `godoc.3.html`, in the reverse order at
`godoc.1.html`. -/
theorem c5_counterexample :
    rewriteAllRecords
        [NewDocFileInfo "a.html" "godoc.1.html", NewDocFileInfo "godoc.1.html" "godoc.3.html"]
        ("href=\"a.html\"").data
      ≠ rewriteAllRecords
        [NewDocFileInfo "godoc.1.html" "godoc.3.html", NewDocFileInfo "a.html" "godoc.1.html"]
        ("href=\"a.html\"").data := by
  decide

/-- C5 (amended): the order in which the files are scanned never affects
any file's final byte content — each file is transformed independently
by the same record fold, so permuting the file list merely permutes the
output — but the order of record application is fixed (ascending glob
order) and is material in general, as one record's new name can be
matched by another record's pattern (see the counterexample). -/
theorem c5_amended_file_order_independent :
    ∀ (recs : List DocFileInfo) (files1 files2 : List (String × List Char)),
      files1.Perm files2 →
      (rewriteHTMLLinksModel recs files1).Perm (rewriteHTMLLinksModel recs files2)
      ∧ ∀ f ∈ files1, (f.1, rewriteAllRecords recs f.2) ∈ rewriteHTMLLinksModel recs files1 := by
  intro recs files1 files2 hperm
  constructor
  · exact hperm.map _
  · intro f hf
    exact List.mem_map_of_mem _ hf

/-- C5 witness: two scan orders of a two-file set produce the same file
contents (as a permutation), and each file's content is the record fold
of its own bytes. -/
theorem c5_amended_file_order_independent_witness :
    (rewriteHTMLLinksModel [NewDocFileInfo "pkg.html" "godoc-root.html"]
        [("a", ("href=\"pkg.html\"").data), ("b", ("x").data)]).Perm
      (rewriteHTMLLinksModel [NewDocFileInfo "pkg.html" "godoc-root.html"]
        [("b", ("x").data), ("a", ("href=\"pkg.html\"").data)])
    ∧ ("a", rewriteAllRecords [NewDocFileInfo "pkg.html" "godoc-root.html"]
          ("href=\"pkg.html\"").data)
        ∈ rewriteHTMLLinksModel [NewDocFileInfo "pkg.html" "godoc-root.html"]
          [("a", ("href=\"pkg.html\"").data), ("b", ("x").data)] := by
  have h := c5_amended_file_order_independent
    [NewDocFileInfo "pkg.html" "godoc-root.html"]
    [("a", ("href=\"pkg.html\"").data), ("b", ("x").data)]
    [("b", ("x").data), ("a", ("href=\"pkg.html\"").data)]
    (by decide)
  exact ⟨h.1, h.2 ("a", ("href=\"pkg.html\"").data) (by decide)⟩

/-! ## Claim C8 -/

/-- C8 counterexample: when the wget command fails and `os.Stat` on
`style.css` itself returns an error that is not `IsNotExist` (for
example a permission error) while the stylesheet is in fact present,
`scrapeModulePages` panics — the code is fatal although the canonical
stylesheet asset is not missing, so "fatal iff tool failed AND the
stylesheet is missing" is violated. -/
theorem c8_counterexample :
    scrapeFatalModel true true true = true ∧ specFatalC8 true true = false := by
  decide

/-- C8 (amended): the mirroring step is fatal exactly when the crawl
tool exits non-zero AND the stylesheet check does not positively succeed
— i.e. `style.css` is reported missing or the existence check itself
errors; a non-zero tool exit with the stylesheet present and a clean
check is downgraded to a logged warning and the pipeline continues. -/
theorem c8_amended_fatal_iff :
    ∀ (wgetFailed present statErr : Bool),
      scrapeFatalModel wgetFailed present statErr
        = (wgetFailed && (!present || statErr)) := by
  intro w p e
  cases w <;> cases p <;> cases e <;> rfl

/-! ## Claim C2 -/

/-- C2 evaluation at the failing input: on the readiness-timeout exit
path the timer goroutine's panic terminates the program without running
the pipeline's deferred cleanup, so `process.Kill` is invoked zero times
and the godoc subprocess is still alive; on the normal and
mirror-failure paths the deferred cleanup runs and termination is
invoked exactly once, with the shutdown-complete signal raised before
the pipeline returns. -/
theorem c2_timeout_skips_termination :
    (runPipelineModel ExitPath.readinessTimeout).killCount = 0
    ∧ (runPipelineModel ExitPath.readinessTimeout).processAlive = true
    ∧ (runPipelineModel ExitPath.readinessTimeout).shutdownCompleteRaised = false
    ∧ (runPipelineModel ExitPath.normal).killCount = 1
    ∧ (runPipelineModel ExitPath.normal).processAlive = false
    ∧ (runPipelineModel ExitPath.normal).shutdownCompleteRaised = true
    ∧ (runPipelineModel ExitPath.mirrorFailure).killCount = 1
    ∧ (runPipelineModel ExitPath.mirrorFailure).processAlive = false
    ∧ (runPipelineModel ExitPath.mirrorFailure).shutdownCompleteRaised = true := by
  decide

/-! ## Claim C9 -/

theorem probeLoop_ready_of_first {resp : Nat → Bool} :
    ∀ (fuel start n : Nat), resp n = true →
      (∀ m, start ≤ m → m < n → resp m = false) →
      start ≤ n → n < start + fuel →
      probeLoop resp fuel start = ProbeResult.ready n := by
  intro fuel
  induction fuel with
  | zero => intro start n _ _ hle hlt; omega
  | succ fuel ih =>
    intro start n hn hfail hle hlt
    by_cases hs : start = n
    · subst hs
      simp [probeLoop, hn]
    · have hlt' : start < n := by omega
      have hstart : resp start = false := hfail start (Nat.le_refl start) hlt'
      rw [probeLoop, hstart]
      simp only [Bool.false_eq_true, if_false]
      exact ih (start + 1) n hn (fun m hm1 hm2 => hfail m (by omega) hm2) (by omega) (by omega)

theorem probeLoop_ready_inv {resp : Nat → Bool} :
    ∀ (fuel start n : Nat), probeLoop resp fuel start = ProbeResult.ready n →
      resp n = true ∧ start ≤ n ∧ n < start + fuel
      ∧ ∀ m, start ≤ m → m < n → resp m = false := by
  intro fuel
  induction fuel with
  | zero => intro start n h; exact absurd h (by simp [probeLoop])
  | succ fuel ih =>
    intro start n h
    rw [probeLoop] at h
    by_cases hs : resp start = true
    · rw [hs] at h
      simp only [if_true] at h
      injection h with hn
      subst hn
      exact ⟨hs, Nat.le_refl start, by omega, fun m hm1 hm2 => by omega⟩
    · have hs' : resp start = false := by
        cases hr : resp start
        · rfl
        · exact absurd hr hs
      rw [hs'] at h
      simp only [Bool.false_eq_true, if_false] at h
      obtain ⟨h1, h2, h3, h4⟩ := ih (start + 1) n h
      refine ⟨h1, by omega, by omega, fun m hm1 hm2 => ?_⟩
      by_cases hm : m = start
      · subst hm; exact hs'
      · exact h4 m (by omega) hm2

theorem probeLoop_timeout_of_all_fail {resp : Nat → Bool} :
    ∀ (fuel start : Nat), (∀ m, start ≤ m → m < start + fuel → resp m = false) →
      probeLoop resp fuel start = ProbeResult.timeoutPanic := by
  intro fuel
  induction fuel with
  | zero => intro start _; rfl
  | succ fuel ih =>
    intro start h
    have hs : resp start = false := h start (Nat.le_refl start) (by omega)
    rw [probeLoop, hs]
    simp only [Bool.false_eq_true, if_false]
    exact ih (start + 1) (fun m hm1 hm2 => h m (by omega) (by omega))

theorem probeLoop_timeout_inv {resp : Nat → Bool} :
    ∀ (fuel start : Nat), probeLoop resp fuel start = ProbeResult.timeoutPanic →
      ∀ m, start ≤ m → m < start + fuel → resp m = false := by
  intro fuel
  induction fuel with
  | zero => intro start _ m hm1 hm2; omega
  | succ fuel ih =>
    intro start h m hm1 hm2
    rw [probeLoop] at h
    by_cases hs : resp start = true
    · rw [hs] at h; simp at h
    · have hs' : resp start = false := by
        cases hr : resp start
        · rfl
        · exact absurd hr hs
      rw [hs'] at h
      simp only [Bool.false_eq_true, if_false] at h
      by_cases hm : m = start
      · subst hm; exact hs'
      · exact ih (start + 1) h m (by omega) (by omega)

/-- C9: the readiness probe retries on every failed attempt (request
error or non-200, both modelled as `resp = false`) at the one-second
interval that indexes attempts, returns exactly at the first 200
response and not before, and hits the fatal `time.AfterFunc` timeout
exactly when no 200 arrives within the ten attempts the 10-second
wall-clock deadline admits. -/
theorem c9_readiness_probe :
    ∀ resp : Nat → Bool,
      (∀ n : Nat, waitForServerModel resp = ProbeResult.ready n ↔
        (n < 10 ∧ resp n = true ∧ ∀ m, m < n → resp m = false))
      ∧ (waitForServerModel resp = ProbeResult.timeoutPanic ↔
          ∀ n, n < 10 → resp n = false) := by
  intro resp
  constructor
  · intro n
    constructor
    · intro h
      obtain ⟨h1, _, h3, h4⟩ := probeLoop_ready_inv 10 0 n h
      exact ⟨by omega, h1, fun m hm => h4 m (Nat.zero_le m) hm⟩
    · intro ⟨h1, h2, h3⟩
      exact probeLoop_ready_of_first 10 0 n h2 (fun m _ hm => h3 m hm) (Nat.zero_le n) (by omega)
  · constructor
    · intro h n hn
      exact probeLoop_timeout_inv 10 0 h n (Nat.zero_le n) (by omega)
    · intro h
      exact probeLoop_timeout_of_all_fail 10 0 (fun m _ hm => h m (by omega))

/-- C9 witness: a server that answers non-200 for the first three
seconds and 200 from second three on makes the probe succeed exactly at
attempt 3; a permanently failing server makes it hit the deadline. -/
theorem c9_readiness_probe_witness :
    waitForServerModel (fun n => n == 3) = ProbeResult.ready 3
    ∧ waitForServerModel (fun _ => false) = ProbeResult.timeoutPanic :=
  ⟨((c9_readiness_probe (fun n => n == 3)).1 3).mpr (by decide),
   (c9_readiness_probe (fun _ => false)).2.mpr (by decide)⟩

/-! ## Claim C7 -/

theorem splitChar_cons_eq (sep c : Char) (rest : List Char) (h : List Char)
    (t : List (List Char)) (hr : splitChar sep rest = h :: t) :
    splitChar sep (c :: rest) = if c = sep then [] :: h :: t else (c :: h) :: t := by
  rw [splitChar, hr]

theorem splitChar_ne_nil (sep : Char) : ∀ l : List Char, splitChar sep l ≠ [] := by
  intro l
  cases l with
  | nil => simp [splitChar]
  | cons c rest =>
    cases hr : splitChar sep rest with
    | nil => rw [splitChar, hr]; simp
    | cons h t =>
      rw [splitChar_cons_eq sep c rest h t hr]
      split <;> simp

theorem splitChar_append (sep : Char) :
    ∀ a b : List Char, splitChar sep (a ++ sep :: b) = splitChar sep a ++ splitChar sep b := by
  intro a b
  induction a with
  | nil =>
    cases hr : splitChar sep b with
    | nil => exact absurd hr (splitChar_ne_nil sep b)
    | cons h t =>
      rw [List.nil_append, splitChar_cons_eq sep sep b h t hr]
      simp [splitChar]
  | cons c a ih =>
    cases ha : splitChar sep a with
    | nil => exact absurd ha (splitChar_ne_nil sep a)
    | cons h t =>
      cases hab : splitChar sep (a ++ sep :: b) with
      | nil => exact absurd hab (splitChar_ne_nil sep _)
      | cons h2 t2 =>
        have ih2 : h2 :: t2 = h :: (t ++ splitChar sep b) := by
          rw [← hab, ih, ha, List.cons_append]
        injection ih2 with e1 e2
        rw [List.cons_append, splitChar_cons_eq sep c _ h2 t2 hab,
          splitChar_cons_eq sep c a h t ha, e1, e2]
        by_cases hc : c = sep <;> simp [hc]

theorem splitChar_no_sep (sep : Char) :
    ∀ l : List Char, sep ∉ l → splitChar sep l = [l] := by
  intro l
  induction l with
  | nil => intro _; rfl
  | cons c rest ih =>
    intro h
    have hc : c ≠ sep := fun hc => h (hc ▸ List.mem_cons_self c rest)
    have hrest : sep ∉ rest := fun hr => h (List.mem_cons_of_mem c hr)
    rw [splitChar, ih hrest]
    simp [hc]

theorem getLastD_concat_eq {α : Type} (x d : α) : ∀ l : List α, (l ++ [x]).getLastD d = x := by
  intro l
  induction l generalizing d with
  | nil => rfl
  | cons c rest ih => rw [List.cons_append, List.getLastD_cons, ih]

/-- The final path segment of `pre ++ "/" ++ seg` is `seg` whenever
`seg` contains no separator. -/
theorem lastSegmentStr_append (pre seg : String) (h : '/' ∉ seg.data) :
    lastSegmentStr (pre ++ "/" ++ seg) = seg := by
  unfold lastSegmentStr
  have hd : (pre ++ "/" ++ seg).data = pre.data ++ '/' :: seg.data := by
    simp [String.data_append]
  rw [hd, splitChar_append, splitChar_no_sep _ _ h, getLastD_concat_eq]

/-- C7: entry-point renaming is the pure function of the module name's
final path segment and the base name the claim states: for every module
name of the form `pre/seg`, the rename maps `<buildDir>/<seg>.html` to
`<buildDir>/<base>-root.html`; concretely, module path
`module/path/to/pkg` with base `godoc` renames `pkg.html` to
`godoc-root.html`. -/
theorem c7_entry_point_rename :
    (∀ (buildDir pre seg base : String), '/' ∉ seg.data →
      renameEntryPointModel buildDir (pre ++ "/" ++ seg) base
        = (buildDir ++ "/" ++ (seg ++ ".html"), buildDir ++ "/" ++ (base ++ "-root.html")))
    ∧ renameEntryPointModel "bd" "module/path/to/pkg" "godoc"
        = ("bd" ++ "/" ++ "pkg.html", "bd" ++ "/" ++ "godoc-root.html") := by
  constructor
  · intro buildDir pre seg base h
    unfold renameEntryPointModel entryOldName entryNewName
    rw [lastSegmentStr_append pre seg h]
  · rfl

/-- C7 witness: the general form applied at the spec's test vector. -/
theorem c7_entry_point_rename_witness :
    renameEntryPointModel "bd" ("module/path/to" ++ "/" ++ "pkg") "godoc"
      = ("bd" ++ "/" ++ ("pkg" ++ ".html"), "bd" ++ "/" ++ ("godoc" ++ "-root.html")) :=
  c7_entry_point_rename.1 "bd" "module/path/to" "pkg" "godoc" (by decide)

/-! ## Claim C1 -/

theorem mem_indicesFrom (e : String) :
    ∀ (l : List String) (n x : Nat), x ∈ indicesFrom n l e → n < x := by
  intro l
  induction l with
  | nil => intro n x hx; simp [indicesFrom] at hx
  | cons c rest ih =>
    intro n x hx
    rw [indicesFrom] at hx
    by_cases hc : c = e
    · rw [if_pos hc] at hx
      exact Nat.lt_of_succ_lt (ih (n + 1) x hx)
    · rw [if_neg hc] at hx
      rcases List.mem_cons.mp hx with h1 | h2
      · omega
      · exact Nat.lt_of_succ_lt (ih (n + 1) x h2)

theorem pairwise_indicesFrom (e : String) :
    ∀ (l : List String) (n : Nat), List.Pairwise (· < ·) (indicesFrom n l e) := by
  intro l
  induction l with
  | nil => intro n; simp [indicesFrom]
  | cons c rest ih =>
    intro n
    rw [indicesFrom]
    by_cases hc : c = e
    · rw [if_pos hc]; exact ih (n + 1)
    · rw [if_neg hc]
      exact List.Pairwise.cons (fun y hy => mem_indicesFrom e rest (n + 1) y hy) (ih (n + 1))

theorem indicesFrom_entry_last (e : String) :
    ∀ (l : List String) (n : Nat), e ∉ l →
      indicesFrom n (l ++ [e]) e = List.range' (n + 1) l.length := by
  intro l
  induction l with
  | nil => intro n _; simp [indicesFrom]
  | cons c rest ih =>
    intro n h
    have hc : c ≠ e := fun hce => h (hce ▸ List.mem_cons_self c rest)
    have hrest : e ∉ rest := fun hr => h (List.mem_cons_of_mem c hr)
    rw [List.cons_append, indicesFrom, if_neg hc, ih (n + 1) hrest]
    rfl

theorem numberFrom_map_newName (e base : String) :
    ∀ (l : List String) (n : Nat),
      (numberFrom n l e base).map DocFileInfo.NewName
        = (indicesFrom n l e).map (fun k => baseName (numberedName base k)) := by
  intro l
  induction l with
  | nil => intro n; rfl
  | cons c rest ih =>
    intro n
    rw [numberFrom, indicesFrom]
    by_cases hc : c = e
    · rw [if_pos hc, if_pos hc]; exact ih (n + 1)
    · rw [if_neg hc, if_neg hc, List.map_cons, List.map_cons, ih (n + 1)]
      rfl

/-- C1 counterexample: build directory mirrored as `index.html` and
`pkg.html` with module name `m/pkg` and base `godoc`.  After the entry
rename the sorted glob is `[godoc-root.html, index.html]`; the loop
skips the entry at position 0 but keeps using the glob position, so the
single non-entry file `index.html` gets index 2 — the indices are `[2]`,
not the contiguous `[1]` the claim requires for N = 1. -/
theorem c1_counterexample :
    (renameOutputFilesModel ["index.html", "pkg.html"] "m/pkg" "godoc").map
        (fun i => (i.OldName, i.NewName)) = [("index.html", "godoc.2.html")]
    ∧ renameIndices
        (globHtmlSorted (entryNewName "godoc" ::
          (["index.html", "pkg.html"].erase (entryOldName "m/pkg"))))
        (entryNewName "godoc") ≠ [1] := by
  constructor
  · decide
  · decide

/-- C1 (amended): the loop assigns index `i + 1` to the file at 0-based
position `i` of the lexically sorted glob list, skipping the entry point
but not its position.  The assigned indices are therefore strictly
increasing (hence unique) and the numbered names are exactly
`<base>.<index>.html` for those indices, but they are the contiguous
block 1..N exactly when the entry point sorts last; when the entry point
sorts earlier there is a gap at its position (see the
counterexample). -/
theorem c1_amended_numbering :
    ∀ (globbed : List String) (entryNew base : String),
      List.Pairwise (· < ·) (renameIndices globbed entryNew)
      ∧ (assignNumberedNames globbed entryNew base).map DocFileInfo.NewName
          = (renameIndices globbed entryNew).map (fun k => baseName (numberedName base k))
      ∧ ∀ l, globbed = l ++ [entryNew] → entryNew ∉ l →
          renameIndices globbed entryNew = List.range' 1 l.length := by
  intro g e b
  refine ⟨pairwise_indicesFrom e g 0, numberFrom_map_newName e b g 0, ?_⟩
  intro l hg hnot
  rw [renameIndices, hg, indicesFrom_entry_last e l 0 hnot]

/-- C1 witness: a sorted glob whose entry point is last gets the
contiguous indices 1..2. -/
theorem c1_amended_numbering_witness :
    List.Pairwise (· < ·)
        (renameIndices ["a.html", "b.html", "godoc-root.html"] "godoc-root.html")
    ∧ renameIndices ["a.html", "b.html", "godoc-root.html"] "godoc-root.html"
        = List.range' 1 2 := by
  have h := c1_amended_numbering ["a.html", "b.html", "godoc-root.html"]
    "godoc-root.html" "godoc"
  exact ⟨h.1, h.2.2 ["a.html", "b.html"] rfl (by decide)⟩

/-! ## Claim C4 -/

/-- C4: the renaming result is a function of the bag of mirrored file
names alone — `filepath.Glob` sorts its matches lexically, so any two
on-disk enumeration orders of the same files produce identical records
(and hence identical renamed output). -/
theorem c4_deterministic_rename :
    ∀ (dirFiles1 dirFiles2 : List String) (modName base : String),
      dirFiles1.Perm dirFiles2 →
      renameOutputFilesModel dirFiles1 modName base
        = renameOutputFilesModel dirFiles2 modName base := by
  intro d1 d2 modName base hperm
  have hperm2 : (entryNewName base :: d1.erase (entryOldName modName)).Perm
      (entryNewName base :: d2.erase (entryOldName modName)) :=
    List.Perm.cons _ (hperm.erase _)
  have hsorted : globHtmlSorted (entryNewName base :: d1.erase (entryOldName modName))
      = globHtmlSorted (entryNewName base :: d2.erase (entryOldName modName)) :=
    List.eq_of_perm_of_sorted
      ((List.perm_insertionSort _ _).trans
        (hperm2.trans (List.perm_insertionSort _ _).symm))
      (List.sorted_insertionSort _ _)
      (List.sorted_insertionSort _ _)
  show assignNumberedNames
      (globHtmlSorted (entryNewName base :: d1.erase (entryOldName modName)))
      (entryNewName base) base
    = assignNumberedNames
      (globHtmlSorted (entryNewName base :: d2.erase (entryOldName modName)))
      (entryNewName base) base
  rw [hsorted]

/-- C4 witness: two enumeration orders of the same mirrored set give the
same records. -/
theorem c4_deterministic_rename_witness :
    renameOutputFilesModel ["index.html", "pkg.html"] "m/pkg" "godoc"
      = renameOutputFilesModel ["pkg.html", "index.html"] "m/pkg" "godoc" :=
  c4_deterministic_rename ["index.html", "pkg.html"] ["pkg.html", "index.html"]
    "m/pkg" "godoc" (by decide)

/-! ## Claim C10 -/

theorem string_eq_of_data_eq {a b : String} (h : a.data = b.data) : a = b := by
  cases a
  cases b
  exact congrArg String.mk h

/-- A replacement that matches the entire remaining text replaces it
wholesale. -/
theorem replaceAll_of_match_all {p : List Matcher} {s : List Char} (r : List Char)
    (h1 : matchHere p s = true) (h2 : p ≠ []) (h3 : s.length ≤ p.length) :
    replaceAll p r s = r := by
  cases s with
  | nil =>
    cases p with
    | nil => exact absurd rfl h2
    | cons m ps => exact absurd h1 (by simp [matchHere])
  | cons c rest =>
    rw [replaceAll_cons_of_match r h1 h2]
    have hd : List.drop p.length (c :: rest) = [] := List.drop_eq_nil_of_le h3
    rw [hd, replaceAll_nil, List.append_nil]

/-- A record whose old path is `index.html` rewrites the literal
reference `href="index.html"` to its new name, whatever the new path
is. -/
theorem rewriteOnce_index_literal (newPath : String) :
    rewriteOnce (NewDocFileInfo "index.html" newPath) ("href=\"index.html\"").data
      = ("href=\"" ++ (NewDocFileInfo "index.html" newPath).NewName ++ "\"").data := by
  have hr1 : (NewDocFileInfo "index.html" newPath).HtmlReplaceRegex1
      = litP "href=\"" ++ wildcardize "index.html" ++ [some '#'] := rfl
  have hr2 : (NewDocFileInfo "index.html" newPath).HtmlReplaceRegex2
      = litP "href=\"" ++ wildcardize "index.html" ++ [some '"'] := rfl
  have h1 : replaceAll (litP "href=\"" ++ wildcardize "index.html" ++ [some '#'])
      (NewDocFileInfo "index.html" newPath).HtmlReplaceWith1 ("href=\"index.html\"").data
      = ("href=\"index.html\"").data :=
    replaceAll_of_hasMatch_false _ (by decide)
  have h2 : replaceAll (litP "href=\"" ++ wildcardize "index.html" ++ [some '"'])
      (NewDocFileInfo "index.html" newPath).HtmlReplaceWith2 ("href=\"index.html\"").data
      = (NewDocFileInfo "index.html" newPath).HtmlReplaceWith2 :=
    replaceAll_of_match_all _ (by decide) (by decide) (by decide)
  unfold rewriteOnce
  rw [hr1, hr2, h1, h2]
  rfl

/-- The entry point's renamed file `<base>-root.html` is never called
`index.html`. -/
theorem entryNewName_ne_index (base : String) : entryNewName base ≠ "index.html" := by
  intro h
  have hd : (entryNewName base).data = ("index.html" : String).data := congrArg String.data h
  rw [entryNewName] at hd
  simp only [String.data_append] at hd
  have hlen : base.data.length + ("-root.html" : String).data.length
      = ("index.html" : String).data.length := by
    rw [← List.length_append, hd]
  have h10 : ("-root.html" : String).data.length = 10 := rfl
  have h10b : ("index.html" : String).data.length = 10 := rfl
  have hnil : base.data = [] := List.eq_nil_of_length_eq_zero (by omega)
  rw [hnil, List.nil_append] at hd
  exact absurd hd (by decide)

/-- If the module name's final segment is not `index`, the entry point's
original file is not `index.html`. -/
theorem entryOldName_ne_index (modName : String) (h : lastSegmentStr modName ≠ "index") :
    entryOldName modName ≠ "index.html" := by
  intro he
  apply h
  have hd : (entryOldName modName).data = ("index.html" : String).data :=
    congrArg String.data he
  rw [entryOldName] at hd
  simp only [String.data_append] at hd
  have hd2 : (lastSegmentStr modName).data ++ (".html" : String).data
      = ("index" : String).data ++ (".html" : String).data := hd
  exact string_eq_of_data_eq (List.append_cancel_right hd2)

/-- Every non-entry member of the glob list yields a record that renames
it to a numbered name with index at least 1. -/
theorem numberFrom_mem_record (e base : String) :
    ∀ (l : List String) (n : Nat) (x : String), x ∈ l → x ≠ e →
      ∃ info ∈ numberFrom n l e base, ∃ k, 1 ≤ k ∧
        info = NewDocFileInfo x (numberedName base k) := by
  intro l
  induction l with
  | nil => intro n x hx _; exact absurd hx (List.not_mem_nil x)
  | cons c rest ih =>
    intro n x hx hxe
    rw [numberFrom]
    by_cases hc : c = e
    · rw [if_pos hc]
      rcases List.mem_cons.mp hx with h1 | h2
      · exact absurd (h1.trans hc) hxe
      · exact ih (n + 1) x h2 hxe
    · rw [if_neg hc]
      rcases List.mem_cons.mp hx with h1 | h2
      · subst h1
        exact ⟨NewDocFileInfo x (numberedName base (n + 1)),
          List.mem_cons_self _ _, n + 1, by omega, rfl⟩
      · obtain ⟨info, hmem, k, hk, hinfo⟩ := ih (n + 1) x h2 hxe
        exact ⟨info, List.mem_cons_of_mem _ hmem, k, hk, hinfo⟩

/-- C10 counterexample: with module name `example.com/index` the entry
point's original file IS `index.html`, so it is renamed to
`godoc-root.html` before the numbering loop and no rename record with
old name `index.html` exists — the claim's "every successful run" is too
strong. -/
theorem c10_counterexample :
    (renameOutputFilesModel ["index.html", "x.html"] "example.com/index" "godoc").map
        DocFileInfo.OldName = ["x.html"]
    ∧ "index.html" ∉ (renameOutputFilesModel ["index.html", "x.html"] "example.com/index"
        "godoc").map DocFileInfo.OldName := by
  constructor <;> decide

/-- C10 (amended): `setupBuildDir` always creates the dummy `index.html`
in the cleared build directory; and in every run whose module name's
final segment is not `index` (so that the entry point is a different
file), if `index.html` is still present at rename time it is numbered
among the non-entry files: a rename record with old name `index.html`
and a numbered `<base>.<k>.html` new name (k ≥ 1) is produced, and that
record rewrites `href="index.html"` references to its numbered name. -/
theorem c10_amended_index_record :
    "index.html" ∈ setupBuildDirModel
    ∧ ∀ (dirFiles : List String) (modName base : String),
        "index.html" ∈ dirFiles →
        lastSegmentStr modName ≠ "index" →
        ∃ info ∈ renameOutputFilesModel dirFiles modName base,
          info.OldName = "index.html"
          ∧ (∃ k, 1 ≤ k ∧ info = NewDocFileInfo "index.html" (numberedName base k))
          ∧ rewriteOnce info ("href=\"index.html\"").data
              = ("href=\"" ++ info.NewName ++ "\"").data := by
  refine ⟨by decide, ?_⟩
  intro dirFiles modName base hmem hseg
  have h1 : "index.html" ∈ dirFiles.erase (entryOldName modName) :=
    (List.mem_erase_of_ne (Ne.symm (entryOldName_ne_index modName hseg))).mpr hmem
  have h2 : ("index.html" : String)
      ∈ entryNewName base :: dirFiles.erase (entryOldName modName) :=
    List.mem_cons_of_mem _ h1
  have h3 : ("index.html" : String)
      ∈ globHtmlSorted (entryNewName base :: dirFiles.erase (entryOldName modName)) :=
    (List.perm_insertionSort strOrder _).mem_iff.mpr h2
  obtain ⟨info, hinfo, k, hk, hinfoeq⟩ :=
    numberFrom_mem_record (entryNewName base) base _ 0 "index.html" h3
      (Ne.symm (entryNewName_ne_index base))
  refine ⟨info, hinfo, ?_, ⟨k, hk, hinfoeq⟩, ?_⟩
  · rw [hinfoeq]
    rfl
  · rw [hinfoeq]
    exact rewriteOnce_index_literal (numberedName base k)

/-- C10 witness: a concrete run with module `m/pkg`, base `godoc` and
mirrored files `index.html`, `pkg.html`. -/
theorem c10_amended_index_record_witness :
    ("index.html" : String) ∈ setupBuildDirModel
    ∧ ∃ info ∈ renameOutputFilesModel ["index.html", "pkg.html"] "m/pkg" "godoc",
        info.OldName = "index.html"
        ∧ (∃ k, 1 ≤ k ∧ info = NewDocFileInfo "index.html" (numberedName "godoc" k))
        ∧ rewriteOnce info ("href=\"index.html\"").data
            = ("href=\"" ++ info.NewName ++ "\"").data :=
  ⟨c10_amended_index_record.1,
   c10_amended_index_record.2 ["index.html", "pkg.html"] "m/pkg" "godoc"
     (by decide) (by decide)⟩
